import Mathlib

/-!
Verification of the FreeDVMonitor RADAE decoder pipeline (`src/rade_decoder.cpp`,
`src/rade_decoder.h`) against its natural-language specification.

Modelling conventions:
* C `float`/`double` values are embedded as exact rationals (`ℚ`);
* fixed-size C arrays used as ring buffers are embedded as total functions `ℕ → ℚ`
  updated with `Function.update`;
* the external vocoder engine (`fargan_init` / `fargan_cont` / `fargan_synthesize`
  from the opus/LPCNet library, not part of this repository) and the float square
  root are opaque collaborators, abstracted as an environment record;
* PulseAudio handles, the RADE modem session and file handles are modelled as
  booleans recording whether the resource is currently held.
-/

set_option maxHeartbeats 1000000
set_option maxRecDepth 4000

namespace FreeDV

/-- Number of taps of the Hilbert FIR (`HILBERT_NTAPS` in `rade_decoder.h`). -/
def HILBERT_NTAPS : ℕ := 127

/-- Group delay of the Hilbert FIR (`HILBERT_DELAY = (127-1)/2 = 63`). -/
def HILBERT_DELAY : ℕ := 63

/-- FFT size (`FFT_SIZE` in `rade_decoder.h`). -/
def FFT_SIZE : ℕ := 512

/-- Number of published spectrum bins (`SPECTRUM_BINS = FFT_SIZE/2 = 256`). -/
def SPECTRUM_BINS : ℕ := 256

/-- Stride of one decoded feature frame (`NB_TOTAL_FEAT = 36` in `rade_decoder.h`). -/
def NB_TOTAL_FEAT : ℕ := 36

/-- Modelled from the spec: the narrower feature stride expected by the vocoder
priming call (`NB_FEATURES` from the external `fargan.h`, not in this repository);
the spec only requires it to be a fixed count narrower than the 36-float total
stride, so we fix the conventional LPCNet value 20. -/
def NB_FEATURES : ℕ := 20

/-- Modelled from the spec: length of one synthesized 10 ms PCM block
(`LPCNET_FRAME_SIZE` from the external `lpcnet.h`, not in this repository);
the claims depend only on it being a fixed constant. -/
def LPCNET_FRAME_SIZE : ℕ := 160

/-- Modelled from the spec: size of the zeroed history/excitation seed passed to
the vocoder continuity-priming call (`FARGAN_CONT_SAMPLES` from the external
`fargan.h`); the claims depend only on it being a fixed constant. -/
def FARGAN_CONT_SAMPLES : ℕ := 160

/-! ### `get_spectrum` (rade_decoder.cpp lines 195-200)

`get_spectrum(out, n)` computes `count = min(n, SPECTRUM_BINS)` and `memcpy`s
`count` floats from `spectrum_mag_` into `out`.  We embed the destination buffer
as a list: the copy overwrites its first `count` entries and leaves the rest. -/

/-- Embedding of `RadaeDecoder::get_spectrum`: copy `min n SPECTRUM_BINS` bins
from the spectrum buffer into the first positions of `out`. -/
def get_spectrum (spectrum_mag : List ℚ) (out : List ℚ) (n : ℕ) : List ℚ :=
  let count := min n SPECTRUM_BINS
  spectrum_mag.take count ++ out.drop count

/-! ### Decoder lifecycle state (open / open_file / close / stop)

The resource-holding and telemetry fields of `RadaeDecoder` (rade_decoder.h
lines 59-113).  Handles are booleans: `true` = resource currently held. -/

/-- Resource and telemetry state of a `RadaeDecoder` object. -/
structure DecoderSt where
  pa_in : Bool
  pa_out : Bool
  rade : Bool
  fargan : Bool
  fargan_ready : Bool
  warmup_count : ℕ
  running : Bool
  rec_file : Bool
  recording : Bool
  fileBuf : List ℚ
  filePos : ℕ
  fileMode : Bool
  synced : Bool
  snr_dB : ℚ
  freq_offset : ℚ
  input_level : ℚ
  input_gain : ℚ
  output_level : ℚ
  deriving Repr, DecidableEq

/-- Freshly constructed `RadaeDecoder` (member initializers in rade_decoder.h). -/
def DecoderSt.init : DecoderSt where
  pa_in := false
  pa_out := false
  rade := false
  fargan := false
  fargan_ready := false
  warmup_count := 0
  running := false
  rec_file := false
  recording := false
  fileBuf := []
  filePos := 0
  fileMode := false
  synced := false
  snr_dB := 0
  freq_offset := 0
  input_level := 0
  input_gain := 1
  output_level := 0

/-- Embedding of `RadaeDecoder::stop` (lines 397-410): if not running it is a
no-op; otherwise it clears the running flag, joins the worker, flushes playback,
and zeroes the input/output levels and the sync flag. -/
def stopD (st : DecoderSt) : DecoderSt :=
  if st.running = false then st
  else { st with running := false, input_level := 0, output_level := 0, synced := false }

/-- Embedding of `RadaeDecoder::stop_recording` (lines 216-221): clears the
recording flag and closes the recording file if open. -/
def stopRecD (st : DecoderSt) : DecoderSt :=
  { st with recording := false, rec_file := false }

/-- Embedding of `RadaeDecoder::close` (lines 364-385): stop, stop recording,
release the RADE session, the vocoder state and both PulseAudio streams, clear
the file-mode buffer, and reset sync/SNR/offset/levels.  Note `input_gain_` is
not touched. -/
def closeD (st : DecoderSt) : DecoderSt :=
  let st1 := stopRecD (stopD st)
  { st1 with
    rade := false
    fargan := false
    pa_in := false
    pa_out := false
    fileBuf := []
    filePos := 0
    fileMode := false
    synced := false
    snr_dB := 0
    freq_offset := 0
    input_level := 0
    output_level := 0 }

/-- Failure pattern for the three fallible acquisition steps of `open()`:
PulseAudio capture, PulseAudio playback, `rade_open`. -/
structure OpenOracle where
  capOk : Bool
  playOk : Bool
  radeOk : Bool
  deriving Repr, DecidableEq

/-- Embedding of `RadaeDecoder::open` (lines 225-290): close, then acquire the
capture stream, the playback stream, the RADE session and the vocoder state in
order, releasing everything acquired so far and returning `false` on the first
failure. -/
def openD (st : DecoderSt) (o : OpenOracle) : Bool × DecoderSt :=
  let st := closeD st
  if o.capOk = false then (false, st)
  else
    let st := { st with pa_in := true }
    if o.playOk = false then (false, { st with pa_in := false })
    else
      let st := { st with pa_out := true }
      if o.radeOk = false then (false, { st with pa_in := false, pa_out := false })
      else
        (true, { st with rade := true, fargan := true, fargan_ready := false,
                         warmup_count := 0 })

/-- Failure pattern and data for `open_file()`: opening the WAV file, parsing
its header, the decoded mono samples, whether the file is already at 8 kHz, the
resampler output, then playback-stream and RADE-session acquisition. -/
structure OpenFileOracle where
  fileOk : Bool
  headerOk : Bool
  mono : List ℚ
  rateIs8k : Bool
  resampled : List ℚ
  playOk : Bool
  radeOk : Bool
  deriving Repr, DecidableEq

/-- Embedding of `RadaeDecoder::open_file` (lines 292-362): close, read and
parse the WAV file, resample to 8 kHz into `file_audio_8k_`, then acquire the
playback stream, the RADE session and the vocoder state, returning `false` on
the first failure.  The decoded buffer `file_audio_8k_` is assigned before the
playback/RADE acquisition steps and is not cleared on their failure. -/
def openFileD (st : DecoderSt) (o : OpenFileOracle) : Bool × DecoderSt :=
  let st := closeD st
  if o.fileOk = false then (false, st)
  else if o.headerOk = false then (false, st)
  else if o.mono = [] then (false, st)
  else
    let buf := if o.rateIs8k then o.mono else o.resampled
    let st := { st with fileBuf := buf }
    if buf = [] then (false, st)
    else
      let st := { st with filePos := 0 }
      if o.playOk = false then (false, st)
      else
        let st := { st with pa_out := true }
        if o.radeOk = false then (false, { st with pa_out := false })
        else
          (true, { st with rade := true, fargan := true, fargan_ready := false,
                           warmup_count := 0, fileMode := true })

/-- All four collaborator resources (capture, playback, modem session, vocoder
state) are released. -/
def resourcesClosed (st : DecoderSt) : Prop :=
  st.pa_in = false ∧ st.pa_out = false ∧ st.rade = false ∧ st.fargan = false

instance (st : DecoderSt) : Decidable (resourcesClosed st) := by
  unfold resourcesClosed; infer_instance

/-- The pipeline is fully closed with no partial state retained: all resources
released and the file-mode fields at their defaults. -/
def fullyClosed (st : DecoderSt) : Prop :=
  resourcesClosed st ∧ st.fileBuf = [] ∧ st.filePos = 0 ∧ st.fileMode = false

instance (st : DecoderSt) : Decidable (fullyClosed st) := by
  unfold fullyClosed; infer_instance

/-! ### Theorems for claims C7, C8, C9 -/

/-- C7 counterexample: with a readable, well-formed, nonempty 8 kHz WAV file and
a playback-stream acquisition failure, `open_file` returns `false` but the
decoded audio buffer `file_audio_8k_` is left populated, so the pipeline is not
fully closed with no partial state retained. -/
theorem C7_open_file_retains_buffer :
    (openFileD DecoderSt.init
        { fileOk := true, headerOk := true, mono := [1], rateIs8k := true,
          resampled := [], playOk := false, radeOk := true }).1 = false
    ∧ ¬ fullyClosed (openFileD DecoderSt.init
        { fileOk := true, headerOk := true, mono := [1], rateIs8k := true,
          resampled := [], playOk := false, radeOk := true }).2 := by
  decide

/-- C7 amended: if any acquisition step of `open()` fails, `open()` returns
`false` and the pipeline is fully closed with no partial state retained; if any
step of `open_file()` fails, it returns `false` and every collaborator resource
(capture, playback, modem session, vocoder state) is released with `file_mode_`
and `running_` still clear — but the decoded audio buffer may remain populated
when the failure happens after the WAV file was loaded. -/
theorem C7_open_fails_atomically (st : DecoderSt) (o : OpenOracle) (o2 : OpenFileOracle) :
    ((openD st o).1 = false → fullyClosed (openD st o).2)
    ∧ ((openFileD st o2).1 = false →
        resourcesClosed (openFileD st o2).2
        ∧ (openFileD st o2).2.fileMode = false
        ∧ (openFileD st o2).2.running = false
        ∧ (openFileD st o2).2.recording = false) := by
  constructor
  · intro h
    simp only [openD] at h ⊢
    cases hc : o.capOk <;> cases hp : o.playOk <;> cases hr : o.radeOk <;>
      simp_all [fullyClosed, resourcesClosed, closeD, stopD, stopRecD]
  · intro h
    simp only [openFileD] at h ⊢
    cases hf : o2.fileOk <;> cases hh : o2.headerOk <;>
      cases hp : o2.playOk <;> cases hr : o2.radeOk <;>
      simp_all [resourcesClosed, closeD, stopD, stopRecD] <;>
      split_ifs <;> simp_all

/-- C7 amended, witness at a concrete failing input: `open()` failing at the
playback step leaves the pipeline fully closed, and `open_file()` failing at the
playback step releases every collaborator resource. -/
theorem C7_open_fails_atomically_witness :
    fullyClosed (openD DecoderSt.init
        { capOk := true, playOk := false, radeOk := true }).2
    ∧ resourcesClosed (openFileD DecoderSt.init
        { fileOk := true, headerOk := true, mono := [1], rateIs8k := true,
          resampled := [], playOk := false, radeOk := true }).2 :=
  ⟨(C7_open_fails_atomically DecoderSt.init
      { capOk := true, playOk := false, radeOk := true }
      { fileOk := true, headerOk := true, mono := [1], rateIs8k := true,
        resampled := [], playOk := false, radeOk := true }).1 (by decide),
   ((C7_open_fails_atomically DecoderSt.init
      { capOk := true, playOk := false, radeOk := true }
      { fileOk := true, headerOk := true, mono := [1], rateIs8k := true,
        resampled := [], playOk := false, radeOk := true }).2 (by decide)).1⟩

/-- C8 counterexample: after `close()`, the current gain is not reset to its
default value 1 — a decoder whose gain was set to 2 keeps gain 2 after close. -/
theorem C8_close_keeps_gain :
    (closeD { DecoderSt.init with input_gain := 2 }).input_gain = 2
    ∧ DecoderSt.init.input_gain = 1 := by
  decide

/-- C8 amended: after `close()` all collaborator resources are released and the
synchronized flag, SNR, frequency offset, input level, output level and
recording flag are reset to their defaults — but the current gain keeps the
value it had before the call (it is never reset by `close()`). -/
theorem C8_close_resets_telemetry_except_gain (st : DecoderSt) :
    (closeD st).synced = false
    ∧ (closeD st).snr_dB = 0
    ∧ (closeD st).freq_offset = 0
    ∧ (closeD st).input_level = 0
    ∧ (closeD st).output_level = 0
    ∧ (closeD st).recording = false
    ∧ resourcesClosed (closeD st)
    ∧ (closeD st).fileBuf = [] ∧ (closeD st).fileMode = false
    ∧ (closeD st).input_gain = st.input_gain := by
  simp only [closeD, stopD, stopRecD, resourcesClosed]
  split <;> simp

/-- C9: `get_spectrum(out, n)` copies exactly `min n SPECTRUM_BINS` bins: the
output keeps the destination length, its first `min n SPECTRUM_BINS` entries
come from the spectrum buffer, later entries are unchanged, and the result only
depends on the first `min n SPECTRUM_BINS` bins of the spectrum buffer. -/
theorem C9_get_spectrum_bounds (spec out : List ℚ) (n : ℕ)
    (hspec : spec.length = SPECTRUM_BINS)
    (hout : min n SPECTRUM_BINS ≤ out.length) :
    (get_spectrum spec out n).length = out.length
    ∧ (∀ i, i < min n SPECTRUM_BINS → (get_spectrum spec out n).getD i 0 = spec.getD i 0)
    ∧ (∀ i, min n SPECTRUM_BINS ≤ i → (get_spectrum spec out n).getD i 0 = out.getD i 0)
    ∧ (∀ spec2 : List ℚ, spec2.take (min n SPECTRUM_BINS) = spec.take (min n SPECTRUM_BINS) →
        get_spectrum spec2 out n = get_spectrum spec out n) := by
  have hc : min n SPECTRUM_BINS ≤ spec.length := by omega
  have htake : (spec.take (min n SPECTRUM_BINS)).length = min n SPECTRUM_BINS := by
    simp [List.length_take]; omega
  refine ⟨?_, ?_, ?_, ?_⟩
  · simp [get_spectrum, List.length_take, List.length_drop]
    omega
  · intro i hi
    have h1 : i < (spec.take (min n SPECTRUM_BINS)).length := by omega
    rw [get_spectrum, List.getD_eq_getElem?_getD, List.getElem?_append_left h1,
      List.getElem?_take, if_pos hi, ← List.getD_eq_getElem?_getD]
  · intro i hi
    rw [get_spectrum, List.getD_eq_getElem?_getD, List.getElem?_append_right (by omega),
      htake, List.getElem?_drop, ← List.getD_eq_getElem?_getD]
    congr 1
    omega
  · intro spec2 h2
    simp only [get_spectrum]
    rw [h2]

/-- C9 witness: with a 256-bin spectrum of zeros, a 3-entry destination and
`n = 2`, the copy has length 3, entry 0 comes from the spectrum and entry 2 is
left unchanged. -/
theorem C9_get_spectrum_bounds_witness :
    (get_spectrum (List.replicate 256 (0 : ℚ)) [5, 6, 7] 2).length = 3
    ∧ (get_spectrum (List.replicate 256 (0 : ℚ)) [5, 6, 7] 2).getD 0 0
        = (List.replicate 256 (0 : ℚ)).getD 0 0
    ∧ (get_spectrum (List.replicate 256 (0 : ℚ)) [5, 6, 7] 2).getD 2 0 = ([5, 6, 7] : List ℚ).getD 2 0 := by
  obtain ⟨h1, h2, h3, -⟩ :=
    C9_get_spectrum_bounds (List.replicate 256 (0 : ℚ)) [5, 6, 7] 2
      (by rw [List.length_replicate]; rfl) (by decide)
  exact ⟨h1, h2 0 (by decide), h3 2 (by decide)⟩

/-! ### Recording tee (rade_decoder.cpp lines 514-536)

Each loop iteration first accumulates samples into `acc_8k`, then (if recording)
converts the first `nin` pre-gain samples to clamped signed 16-bit PCM and
appends them to the recording file, then applies the gain multiplier to those
same first `nin` samples, which are consumed (erased) at line 576.  Samples
beyond index `nin` stay in `acc_8k` untouched by the gain loop. -/

/-- Truncation toward zero, the behaviour of C `static_cast<int16_t>(float)` for
in-range values. -/
def truncQ (x : ℚ) : ℤ :=
  if 0 ≤ x then ⌊x⌋ else ⌈x⌉

/-- Embedding of the per-sample 16-bit conversion (lines 518-521): scale by
32768, clamp to `[-32768, 32767]`, truncate. -/
def i16_of_sample (x : ℚ) : ℤ :=
  let s := x * 32768
  if 32767 < s then 32767
  else if s < -32768 then -32768
  else truncQ s

/-- Accumulation buffer and recording-file contents. -/
structure RecSt where
  acc : List ℚ
  file : List ℤ
  deriving Repr, DecidableEq

/-- Inputs of one loop iteration relevant to recording: the freshly captured
samples appended to `acc_8k`, the sample demand `nin`, and the gain in effect. -/
structure RecIter where
  newSamples : List ℚ
  nin : ℕ
  gain : ℚ
  deriving Repr, DecidableEq

/-- Embedding of one iteration of the recording/gain/consume section of
`processing_loop` with recording active: append captured samples, tee the first
`nin` pre-gain samples (clamped to 16-bit) to the file, apply gain to those same
samples and consume them.  The second component is the gained block handed to
the downstream Hilbert/demodulator stages. -/
def recIterStep (st : RecSt) (it : RecIter) : RecSt × List ℚ :=
  let acc := st.acc ++ it.newSamples
  let file := st.file ++ (acc.take it.nin).map i16_of_sample
  let sent := (acc.take it.nin).map (fun x => x * it.gain)
  (⟨acc.drop it.nin, file⟩, sent)

/-- Run a sequence of recording iterations. -/
def recRun : RecSt → List RecIter → RecSt
  | st, [] => st
  | st, it :: rest => recRun (recIterStep st it).1 rest

/-- The pre-gain samples consumed over a sequence of iterations, in order. -/
def recConsumed : List ℚ → List RecIter → List ℚ
  | _, [] => []
  | acc, it :: rest =>
      ((acc ++ it.newSamples).take it.nin)
        ++ recConsumed ((acc ++ it.newSamples).drop it.nin) rest

/-- Admissibility of a run: each iteration's demand `nin` is covered by the
accumulated samples (the accumulate loop at lines 478-510 guarantees this). -/
def recOkLen : ℕ → List RecIter → Bool
  | _, [] => true
  | a, it :: rest =>
      decide (it.nin ≤ a + it.newSamples.length)
        && recOkLen (a + it.newSamples.length - it.nin) rest

theorem recConsumed_length (acc : List ℚ) (iters : List RecIter)
    (hok : recOkLen acc.length iters = true) :
    (recConsumed acc iters).length = (iters.map RecIter.nin).sum := by
  induction iters generalizing acc with
  | nil => simp [recConsumed]
  | cons it rest ih =>
    simp only [recOkLen, Bool.and_eq_true, decide_eq_true_eq] at hok
    have hlen : ((acc ++ it.newSamples).drop it.nin).length
        = acc.length + it.newSamples.length - it.nin := by
      simp [List.length_drop]
    simp only [recConsumed, List.length_append, List.length_take, List.map_cons, List.sum_cons]
    rw [ih _ (by rw [hlen]; exact hok.2)]
    simp [List.length_append]
    omega

theorem i16_of_sample_bounds (x : ℚ) :
    -32768 ≤ i16_of_sample x ∧ i16_of_sample x ≤ 32767 := by
  unfold i16_of_sample truncQ
  simp only []
  split_ifs with h1 h2 h3
  · omega
  · omega
  · constructor
    · have h' : (-32768 : ℤ) ≤ ⌊x * 32768⌋ := by
        rw [Int.le_floor]; push_cast; linarith
      omega
    · have h' : (⌊x * 32768⌋ : ℚ) ≤ 32767 :=
        le_trans (Int.floor_le _) (by linarith)
      exact_mod_cast h'
  · constructor
    · have h' : (-32768 : ℚ) ≤ (⌈x * 32768⌉ : ℚ) :=
        le_trans (by linarith) (Int.le_ceil _)
      exact_mod_cast h'
    · have h' : ⌈x * 32768⌉ ≤ 32767 := by
        rw [Int.ceil_le]; push_cast; linarith
      omega

theorem recConsumed_gain_irrelevant (g : ℚ) (iters : List RecIter) :
    ∀ acc : List ℚ,
      recConsumed acc (iters.map (fun it => { it with gain := g })) = recConsumed acc iters := by
  induction iters with
  | nil => intro acc; rfl
  | cons it rest ih =>
    intro acc
    simp only [List.map_cons, recConsumed]
    rw [ih]

theorem recRun_file (st : RecSt) (iters : List RecIter) :
    (recRun st iters).file = st.file ++ (recConsumed st.acc iters).map i16_of_sample := by
  induction iters generalizing st with
  | nil => simp [recRun, recConsumed]
  | cons it rest ih =>
    simp only [recRun, recIterStep, recConsumed]
    rw [ih]
    simp [List.append_assoc]

/-- C6: with recording active, every iteration appends to the file exactly the
`nin` consumed pre-gain samples, converted to clamped signed 16-bit PCM; over a
whole admissible run the file grows by one 16-bit word per consumed sample
(2·N bytes for N samples), every recorded word lies in `[-32768, 32767]`, and
the file contents are the same for any gain values in effect. -/
theorem C6_recording_pre_gain (st : RecSt) (iters : List RecIter)
    (hok : recOkLen st.acc.length iters = true) :
    (recRun st iters).file = st.file ++ (recConsumed st.acc iters).map i16_of_sample
    ∧ (recRun st iters).file.length = st.file.length + (iters.map RecIter.nin).sum
    ∧ 2 * (recRun st iters).file.length
        = 2 * st.file.length + 2 * (iters.map RecIter.nin).sum
    ∧ (∀ v ∈ (recConsumed st.acc iters).map i16_of_sample, -32768 ≤ v ∧ v ≤ 32767)
    ∧ (∀ g : ℚ, (recRun st (iters.map (fun it => { it with gain := g }))).file
        = (recRun st iters).file) := by
  have hfile := recRun_file st iters
  have hlen := recConsumed_length st.acc iters hok
  refine ⟨hfile, ?_, ?_, ?_, ?_⟩
  · rw [hfile]; simp [hlen]
  · rw [hfile]
    simp only [List.length_append, List.length_map, hlen]
    ring
  · intro v hv
    simp only [List.mem_map] at hv
    obtain ⟨x, -, rfl⟩ := hv
    exact i16_of_sample_bounds x
  · intro g
    rw [recRun_file, recRun_file, recConsumed_gain_irrelevant]

/-- Concrete two-iteration recording run used as the C6 witness input. -/
def c6iters : List RecIter :=
  [⟨[1, 2], 2, 3⟩, ⟨[(1 : ℚ)/2, 5], 2, 3⟩]

/-- C6 witness: a concrete admissible two-iteration run with gain 3: the file
holds the four consumed pre-gain samples as 16-bit words (2 bytes each), and
replacing the gain by any other value leaves the recorded file unchanged. -/
theorem C6_recording_pre_gain_witness :
    (recRun ⟨[], []⟩ c6iters).file = [] ++ (recConsumed [] c6iters).map i16_of_sample
    ∧ (recRun ⟨[], []⟩ c6iters).file.length = 0 + 4
    ∧ (∀ g : ℚ, (recRun ⟨[], []⟩ (c6iters.map (fun it => { it with gain := g }))).file
        = (recRun ⟨[], []⟩ c6iters).file) := by
  obtain ⟨h1, h2, -, -, h5⟩ := C6_recording_pre_gain ⟨[], []⟩ c6iters (by decide)
  exact ⟨h1, by rw [h2]; rfl, h5⟩

/-! ### Streaming Hilbert transform (rade_decoder.cpp lines 419-447)

`hilbert_process` keeps two 127-slot ring buffers: `hist` for the FIR that
produces the imaginary part, and `delay` for the real part, read 63 positions
behind the current write position.  Both rings and both positions are zeroed by
`open()`/`open_file()` (lines 279-282 and 349-352).  The FIR coefficients are
floats computed with `cos`; the real-part claim does not depend on them, so
they are a parameter of the embedding. -/

/-- State of the streaming Hilbert transform: the two 127-slot rings and their
write positions. -/
structure HilbertSt where
  hist : ℕ → ℚ
  pos : ℕ
  delay : ℕ → ℚ
  dpos : ℕ

/-- Freshly initialized Hilbert state as set up by `open()`: both rings zeroed,
both positions zero. -/
def hilbertInit : HilbertSt :=
  ⟨fun _ => 0, 0, fun _ => 0, 0⟩

/-- Embedding of one iteration of the loop body of `hilbert_process`: store the
sample in the history ring, convolve the 127 coefficients against the ring for
the imaginary part, store the sample in the delay ring and read 63 positions
behind for the real part, then advance both positions modulo 127.  The output
pair is `(real, imag)`. -/
def hilbertStep (coeffs : ℕ → ℚ) (st : HilbertSt) (sample : ℚ) : HilbertSt × (ℚ × ℚ) :=
  let hist := Function.update st.hist st.pos sample
  let imag := (List.range HILBERT_NTAPS).foldl
    (fun (acc : ℚ) (k : ℕ) =>
      let idx : ℤ := (st.pos : ℤ) - (k : ℤ)
      let idx2 : ℤ := if idx < 0 then idx + (HILBERT_NTAPS : ℤ) else idx
      acc + coeffs k * hist idx2.toNat) 0
  let delay := Function.update st.delay st.dpos sample
  let read : ℤ := (st.dpos : ℤ) - (HILBERT_DELAY : ℤ)
  let read := if read < 0 then read + (HILBERT_NTAPS : ℤ) else read
  ({ hist := hist, pos := (st.pos + 1) % HILBERT_NTAPS,
     delay := delay, dpos := (st.dpos + 1) % HILBERT_NTAPS },
   (delay read.toNat, imag))

/-- Embedding of `hilbert_process`: map one input sample to one output
`RADE_COMP`, threading the ring state. -/
def hilbert_process (coeffs : ℕ → ℚ) : HilbertSt → List ℚ → HilbertSt × List (ℚ × ℚ)
  | st, [] => (st, [])
  | st, x :: xs =>
    let s1 := hilbertStep coeffs st x
    let s2 := hilbert_process coeffs s1.1 xs
    (s2.1, s1.2 :: s2.2)

/-- Value held by slot `p` of the delay ring after the first `t` samples of
`ins` have been written (slot `p` was last written at step
`t - 1 - ((t - 1 - p) mod 127)` if that step exists, and holds its initial zero
otherwise). -/
def lastVal (ins : List ℚ) (t : ℕ) (p : ℕ) : ℚ :=
  if 0 ≤ (t : ℤ) - 1 - (((t : ℤ) - 1 - (p : ℤ)) % 127)
  then ins.getD ((t : ℤ) - 1 - (((t : ℤ) - 1 - (p : ℤ)) % 127)).toNat 0
  else 0

theorem lastVal_eq_of (ins : List ℚ) {t t' p p' : ℕ}
    (h : (t : ℤ) - 1 - (((t : ℤ) - 1 - (p : ℤ)) % 127)
        = (t' : ℤ) - 1 - (((t' : ℤ) - 1 - (p' : ℤ)) % 127)) :
    lastVal ins t p = lastVal ins t' p' := by
  unfold lastVal
  rw [h]

/-- Invariant of the delay ring: after `t` samples the write position is
`t % 127` and every slot holds the last sample written to it. -/
def HilbertInv (ins : List ℚ) (t : ℕ) (st : HilbertSt) : Prop :=
  st.dpos = t % 127 ∧ ∀ p, p < 127 → st.delay p = lastVal ins t p

theorem hilbertInit_inv (ins : List ℚ) : HilbertInv ins 0 hilbertInit := by
  refine ⟨rfl, fun p hp => ?_⟩
  have hj : ((0 : ℤ) - 1 - (((0 : ℤ) - 1 - (p : ℤ)) % 127) < 0) := by
    have h0 : (0 : ℤ) ≤ ((0 : ℤ) - 1 - (p : ℤ)) % 127 := Int.emod_nonneg _ (by norm_num)
    omega
  simp only [lastVal, hilbertInit]
  rw [if_neg (by omega)]

theorem lastVal_succ (ins : List ℚ) (t p : ℕ) (hp : p < 127) :
    lastVal ins (t + 1) p = if p = t % 127 then ins.getD t 0 else lastVal ins t p := by
  by_cases h : p = t % 127
  · rw [if_pos h]
    unfold lastVal
    have h0 : ((t + 1 : ℕ) : ℤ) - 1 - ((((t + 1 : ℕ) : ℤ) - 1 - (p : ℤ)) % 127) = (t : ℤ) := by
      push_cast
      omega
    rw [h0, if_pos (by positivity), Int.toNat_natCast]
  · rw [if_neg h]
    apply lastVal_eq_of
    push_cast
    omega

theorem hilbertStep_inv (coeffs : ℕ → ℚ) (ins : List ℚ) (t : ℕ) (st : HilbertSt)
    (hinv : HilbertInv ins t st) :
    HilbertInv ins (t + 1) (hilbertStep coeffs st (ins.getD t 0)).1
    ∧ (hilbertStep coeffs st (ins.getD t 0)).2.1
        = (if 63 ≤ t then ins.getD (t - 63) 0 else 0) := by
  obtain ⟨hpos, hdel⟩ := hinv
  constructor
  · constructor
    · simp only [hilbertStep]
      rw [hpos]
      show (t % 127 + 1) % 127 = (t + 1) % 127
      omega
    · intro p hp
      simp only [hilbertStep]
      rw [lastVal_succ ins t p hp, hpos]
      by_cases h : p = t % 127
      · rw [if_pos h]
        subst h
        simp [Function.update]
      · rw [if_neg h]
        rw [Function.update_noteq (by omega)]
        exact hdel p hp
  · simp only [hilbertStep]
    have h127 : (HILBERT_NTAPS : ℤ) = 127 := rfl
    have h63 : (HILBERT_DELAY : ℤ) = 63 := rfl
    set read0 : ℤ := (st.dpos : ℤ) - (HILBERT_DELAY : ℤ) with hread0
    set read1 : ℤ := if read0 < 0 then read0 + (HILBERT_NTAPS : ℤ) else read0 with hread1
    have hd : (st.dpos : ℤ) = (t : ℤ) % 127 := by
      rw [hpos]; push_cast; ring
    have hr_lt : read1 < 127 := by
      rw [hread1, hread0]
      have := Int.emod_lt_of_pos (t : ℤ) (by norm_num : (0:ℤ) < 127)
      have := Int.emod_nonneg (t : ℤ) (by norm_num : (127:ℤ) ≠ 0)
      split_ifs <;> omega
    have hr_nonneg : 0 ≤ read1 := by
      rw [hread1, hread0]
      have := Int.emod_nonneg (t : ℤ) (by norm_num : (127:ℤ) ≠ 0)
      split_ifs <;> omega
    have hr_ne : read1.toNat ≠ st.dpos := by
      intro hc
      have : read1 = (st.dpos : ℤ) := by omega
      rw [hread1, hread0] at this
      split_ifs at this <;> omega
    rw [Function.update_noteq hr_ne]
    rw [hdel read1.toNat (by omega)]
    unfold lastVal
    have hcast : ((read1.toNat : ℕ) : ℤ) = read1 := Int.toNat_of_nonneg hr_nonneg
    have hmod : ((t : ℤ) - 1 - (read1.toNat : ℤ)) % 127 = 62 := by
      rw [hcast, hread1, hread0, hd]
      have h1 := Int.emod_nonneg (t : ℤ) (by norm_num : (127:ℤ) ≠ 0)
      have h2 := Int.emod_lt_of_pos (t : ℤ) (by norm_num : (0:ℤ) < 127)
      split_ifs with hneg
      · omega
      · omega
    rw [hmod]
    by_cases ht : 63 ≤ t
    · rw [if_pos (by omega), if_pos ht]
      congr 1
      omega
    · rw [if_neg (by omega), if_neg ht]

theorem hilbert_process_real (coeffs : ℕ → ℚ) :
    ∀ (xs : List ℚ) (t : ℕ) (st : HilbertSt) (ins : List ℚ),
      ins.drop t = xs → HilbertInv ins t st →
      (hilbert_process coeffs st xs).2.length = xs.length
      ∧ ∀ k, k < xs.length →
          ((hilbert_process coeffs st xs).2.getD k (0, 0)).1
            = (if 63 ≤ t + k then ins.getD (t + k - 63) 0 else 0) := by
  intro xs
  induction xs with
  | nil => intro t st ins _ _; exact ⟨rfl, fun k hk => absurd hk (by simp)⟩
  | cons x rest ih =>
    intro t st ins hdrop hinv
    have hx : ins.getD t 0 = x := by
      have h := List.getElem?_drop ins t 0
      rw [hdrop] at h
      simp only [Nat.add_zero, List.getElem?_cons_zero] at h
      rw [List.getD_eq_getElem?_getD, ← h]
      rfl
    have hrest : ins.drop (t + 1) = rest := by
      rw [← List.drop_drop 1 t ins, hdrop, List.drop_one]
      rfl
    obtain ⟨hinv', hout⟩ := hilbertStep_inv coeffs ins t st hinv
    rw [hx] at hinv' hout
    obtain ⟨ihlen, ihval⟩ := ih (t + 1) (hilbertStep coeffs st x).1 ins hrest hinv'
    constructor
    · simp only [hilbert_process, List.length_cons, ihlen]
    · intro k hk
      cases k with
      | zero =>
        simpa [hilbert_process] using hout
      | succ k' =>
        have hk' : k' < rest.length := by simpa using hk
        have := ihval k' hk'
        simp only [hilbert_process, List.getD_cons_succ]
        rw [this]
        have harith : t + 1 + k' = t + (k' + 1) := by omega
        rw [harith]

/-- C1: starting from the freshly initialized Hilbert state, the output of
`hilbert_process` has one complex sample per input sample, and the real
component of output sample `i` is input sample `i - 63` for `i ≥ 63` and zero
for `i < 63`, for any FIR coefficients. -/
theorem C1_hilbert_group_delay (coeffs : ℕ → ℚ) (ins : List ℚ) :
    (hilbert_process coeffs hilbertInit ins).2.length = ins.length
    ∧ (∀ i, i < ins.length → 63 ≤ i →
        ((hilbert_process coeffs hilbertInit ins).2.getD i (0, 0)).1 = ins.getD (i - 63) 0)
    ∧ (∀ i, i < ins.length → i < 63 →
        ((hilbert_process coeffs hilbertInit ins).2.getD i (0, 0)).1 = 0) := by
  obtain ⟨hlen, hval⟩ :=
    hilbert_process_real coeffs ins 0 hilbertInit ins (List.drop_zero ins) (hilbertInit_inv ins)
  refine ⟨hlen, fun i hi h63 => ?_, fun i hi h63 => ?_⟩
  · have := hval i hi
    rw [Nat.zero_add] at this
    rw [this, if_pos h63]
  · have := hval i hi
    rw [Nat.zero_add] at this
    rw [this, if_neg (by omega)]

/-- C1 witness: feeding 65 ones to a freshly initialized generator yields 65
outputs, output 64 has real part equal to input 1, and output 5 has real part
zero. -/
theorem C1_hilbert_group_delay_witness :
    (hilbert_process (fun _ => 0) hilbertInit (List.replicate 65 (1 : ℚ))).2.length = 65
    ∧ ((hilbert_process (fun _ => 0) hilbertInit
        (List.replicate 65 (1 : ℚ))).2.getD 64 (0, 0)).1
        = (List.replicate 65 (1 : ℚ)).getD 1 0
    ∧ ((hilbert_process (fun _ => 0) hilbertInit
        (List.replicate 65 (1 : ℚ))).2.getD 5 (0, 0)).1 = 0 := by
  obtain ⟨h1, h2, h3⟩ := C1_hilbert_group_delay (fun _ => 0) (List.replicate 65 (1 : ℚ))
  refine ⟨by rw [h1, List.length_replicate], ?_, ?_⟩
  · have := h2 64 (by rw [List.length_replicate]; omega) (by omega)
    simpa using this
  · exact h3 5 (by rw [List.length_replicate]; omega) (by omega)

/-! ### Vocoder continuity manager and output-level metering
(rade_decoder.cpp lines 594-673)

The per-iteration tail of `processing_loop`: sync-transition handling, the
FARGAN warm-up state machine, per-frame synthesis, the one-shot silence
pre-fill of the playback sink, and the output-level update.  The external
vocoder engine and the float square root are opaque; they are supplied as an
environment.  For ease of induction the per-frame RMS contributions are
returned per frame and summed by the driver — addition of the exact rational
contributions is associative, so this agrees with the source's running sums. -/

/-- Modelled from the spec: the opaque external vocoder engine and float square
root.  `fstate0` is the state produced by `fargan_init`; `fcont` is the
continuity-priming call `fargan_cont(state, seed, packed)`; `fsynth` is
`fargan_synthesize(state, feat)`, which fills a buffer of exactly
`LPCNET_FRAME_SIZE` samples; `sqrtQ` stands for `std::sqrt`. -/
structure VocoderEnv (V : Type) where
  fstate0 : V
  fcont : V → List ℚ → List ℚ → V
  fsynth : V → List ℚ → (Fin LPCNET_FRAME_SIZE → ℚ) × V
  sqrtQ : ℚ → ℚ

/-- Loop-carried state of the synthesis tail of `processing_loop`: the vocoder
state, the warm-up machine (`fargan_ready_`, `warmup_count_`, `warmup_buf_`),
the locals `output_primed` and `was_synced`, and the published `output_level_`. -/
structure LoopSt (V : Type) where
  voc : V
  fargan_ready : Bool
  warmup_count : ℕ
  warmup_buf : ℕ → List ℚ
  output_primed : Bool
  was_synced : Bool
  output_level : ℚ

/-- Events written to the playback sink during one or more iterations, in
order: a silence pre-fill of `n` zero samples, or one synthesized PCM block. -/
inductive PlayEvent
  | silence (n : ℕ)
  | speech (pcm : List ℚ)
  deriving Repr, DecidableEq

/-- Events produced by the synthesis tail: playback-sink writes in order, and
the `fargan_cont` priming calls with their (seed, packed block) arguments. -/
structure IterEvents where
  plays : List PlayEvent
  primes : List (List ℚ × List ℚ)
  deriving Repr, DecidableEq

/-- Size of the silence pre-fill written when first entering the primed state
(`2 * 12 * LPCNET_FRAME_SIZE`, line 635). -/
def PREFILL : ℕ := 2 * 12 * LPCNET_FRAME_SIZE

/-- Embedding of the body of the per-frame loop (lines 610-662): in warm-up,
store the frame in the warm-up buffer; on the 5th frame repack the buffer from
the `NB_TOTAL_FEAT` stride to the `NB_FEATURES` stride, call `fargan_cont` with
a zeroed seed, mark ready, and pre-fill the playback sink with silence if not
yet primed; once ready, synthesize one `LPCNET_FRAME_SIZE`-sample block, send
it to the sink and return its squared-sum RMS contribution. -/
def processFrame {V : Type} (env : VocoderEnv V) (st : LoopSt V) (feat : List ℚ) :
    LoopSt V × (ℚ × ℕ) × IterEvents :=
  if st.fargan_ready = false then
    let buf := Function.update st.warmup_buf st.warmup_count (feat.take NB_TOTAL_FEAT)
    let wc := st.warmup_count + 1
    if 5 ≤ wc then
      let packed := (List.range 5).flatMap (fun i => (buf i).take NB_FEATURES)
      let zeros : List ℚ := List.replicate FARGAN_CONT_SAMPLES 0
      let st1 : LoopSt V :=
        { st with warmup_buf := buf, warmup_count := wc,
                  voc := env.fcont st.voc zeros packed, fargan_ready := true }
      if st1.output_primed = false then
        ({ st1 with output_primed := true }, (0, 0),
         ⟨[PlayEvent.silence PREFILL], [(zeros, packed)]⟩)
      else
        (st1, (0, 0), ⟨[], [(zeros, packed)]⟩)
    else
      ({ st with warmup_buf := buf, warmup_count := wc }, (0, 0), ⟨[], []⟩)
  else
    let syn := env.fsynth st.voc feat
    let pcm : List ℚ := List.ofFn syn.1
    ({ st with voc := syn.2 },
     ((pcm.map (fun x => x * x)).sum, LPCNET_FRAME_SIZE),
     ⟨[PlayEvent.speech pcm], []⟩)

/-- Fold `processFrame` over the feature frames of one iteration, summing the
RMS contributions and concatenating the emitted events. -/
def runFrames {V : Type} (env : VocoderEnv V) : LoopSt V → List (List ℚ) →
    LoopSt V × (ℚ × ℕ) × IterEvents
  | st, [] => (st, (0, 0), ⟨[], []⟩)
  | st, f :: fs =>
    let r1 := processFrame env st f
    let r2 := runFrames env r1.1 fs
    (r2.1, (r1.2.1.1 + r2.2.1.1, r1.2.1.2 + r2.2.1.2),
     ⟨r1.2.2.plays ++ r2.2.2.plays, r1.2.2.primes ++ r2.2.2.primes⟩)

/-- Embedding of the sync-transition handling (lines 594-602): on a
synchronized→unsynchronized edge, re-initialize the vocoder state, clear the
warm-up machine and the `output_primed` local; then record the new sync flag. -/
def syncStep {V : Type} (env : VocoderEnv V) (st : LoopSt V) (now_synced : Bool) : LoopSt V :=
  let st1 :=
    if st.was_synced = true && now_synced = false then
      { st with voc := env.fstate0, fargan_ready := false, warmup_count := 0,
                output_primed := false }
    else st
  { st1 with was_synced := now_synced }

/-- Embedding of one iteration of the synthesis tail of `processing_loop`
(lines 594-673): sync handling, then either per-frame processing with a final
output-level store (only when at least one frame was synthesized), or — when
the decode call returned no frames — a 0.9 multiplicative decay of the
published output level. -/
def stepIter {V : Type} (env : VocoderEnv V) (st : LoopSt V)
    (input : Bool × List (List ℚ)) : LoopSt V × IterEvents :=
  let st := syncStep env st input.1
  if input.2 = [] then
    ({ st with output_level := st.output_level * (9 / 10) }, ⟨[], []⟩)
  else
    let r := runFrames env st input.2
    if 0 < r.2.1.2 then
      ({ r.1 with output_level := env.sqrtQ (r.2.1.1 / (r.2.1.2 : ℚ)) }, r.2.2)
    else
      (r.1, r.2.2)

/-- Run a sequence of loop iterations, concatenating all emitted events. -/
def runIters {V : Type} (env : VocoderEnv V) : LoopSt V → List (Bool × List (List ℚ)) →
    LoopSt V × IterEvents
  | st, [] => (st, ⟨[], []⟩)
  | st, i :: rest =>
    let r1 := stepIter env st i
    let r2 := runIters env r1.1 rest
    (r2.1, ⟨r1.2.plays ++ r2.2.plays, r1.2.primes ++ r2.2.primes⟩)

/-- Number of synthesized PCM blocks among a list of playback events. -/
def speechCount (evs : List PlayEvent) : ℕ :=
  evs.countP (fun e => match e with | PlayEvent.speech _ => true | _ => false)

/-- Concrete vocoder environment over a unit state, used for witnesses. -/
def trivialVoc : VocoderEnv Unit where
  fstate0 := ()
  fcont := fun _ _ _ => ()
  fsynth := fun _ _ => (fun _ => 0, ())
  sqrtQ := fun _ => 0

/-- Fresh loop state entered by `processing_loop` right after `open()`. -/
def freshLoopSt {V : Type} (env : VocoderEnv V) : LoopSt V where
  voc := env.fstate0
  fargan_ready := false
  warmup_count := 0
  warmup_buf := fun _ => []
  output_primed := false
  was_synced := false
  output_level := 0

/-- Repacking of a 5-frame block from the `NB_TOTAL_FEAT` stride to the
`NB_FEATURES` stride, as performed at lines 621-625. -/
def packedOf (frames : List (List ℚ)) : List ℚ :=
  frames.flatMap (fun f => (f.take NB_TOTAL_FEAT).take NB_FEATURES)

theorem getD_append_lt {α : Type} (l1 l2 : List α) (d : α) (i : ℕ) (h : i < l1.length) :
    (l1 ++ l2).getD i d = l1.getD i d := by
  rw [List.getD_eq_getElem?_getD, List.getElem?_append_left h, ← List.getD_eq_getElem?_getD]

theorem getD_append_len {α : Type} (l1 : List α) (x : α) (d : α) :
    (l1 ++ [x]).getD l1.length d = x := by
  rw [List.getD_eq_getElem?_getD, List.getElem?_append_right (le_refl _)]
  simp

theorem packed_eq (buf : ℕ → List ℚ) (frames : List (List ℚ)) (hlen : frames.length = 5)
    (hbuf : ∀ i, i < 5 → buf i = (frames.getD i []).take NB_TOTAL_FEAT) :
    (List.range 5).flatMap (fun i => (buf i).take NB_FEATURES) = packedOf frames := by
  match frames, hlen with
  | [f0, f1, f2, f3, f4], _ =>
    have e0 := hbuf 0 (by norm_num)
    have e1 := hbuf 1 (by norm_num)
    have e2 := hbuf 2 (by norm_num)
    have e3 := hbuf 3 (by norm_num)
    have e4 := hbuf 4 (by norm_num)
    simp only [List.getD_cons_zero, List.getD_cons_succ] at e0 e1 e2 e3 e4
    show ([0, 1, 2, 3, 4] : List ℕ).flatMap (fun i => (buf i).take NB_FEATURES)
        = packedOf [f0, f1, f2, f3, f4]
    simp [List.flatMap, packedOf, e0, e1, e2, e3, e4]

/-- Behaviour of the per-frame loop once the vocoder is primed: every frame
produces exactly one speech block of `LPCNET_FRAME_SIZE` samples, no priming
calls occur, and the warm-up machine, the primed flag and the level are
untouched. -/
theorem runFrames_primed {V : Type} (env : VocoderEnv V) (st : LoopSt V)
    (fs : List (List ℚ)) (h : st.fargan_ready = true) :
    (runFrames env st fs).2.2.primes = []
    ∧ (runFrames env st fs).2.2.plays.length = fs.length
    ∧ (∀ e ∈ (runFrames env st fs).2.2.plays,
        ∃ pcm, e = PlayEvent.speech pcm ∧ pcm.length = LPCNET_FRAME_SIZE)
    ∧ (runFrames env st fs).2.1.2 = fs.length * LPCNET_FRAME_SIZE
    ∧ (runFrames env st fs).1.fargan_ready = true
    ∧ (runFrames env st fs).1.output_primed = st.output_primed
    ∧ (runFrames env st fs).1.output_level = st.output_level
    ∧ (runFrames env st fs).1.warmup_count = st.warmup_count
    ∧ (runFrames env st fs).1.was_synced = st.was_synced := by
  induction fs generalizing st with
  | nil => simp [runFrames, h]
  | cons f fs ih =>
    have hpf : processFrame env st f
        = ({ st with voc := (env.fsynth st.voc f).2 },
           (((List.ofFn (env.fsynth st.voc f).1).map (fun x => x * x)).sum, LPCNET_FRAME_SIZE),
           ⟨[PlayEvent.speech (List.ofFn (env.fsynth st.voc f).1)], []⟩) := by
      rw [processFrame, if_neg (by simp [h])]
    obtain ⟨i1, i2, i3, i4, i5, i6, i7, i8, i9⟩ :=
      ih { st with voc := (env.fsynth st.voc f).2 } h
    simp only [runFrames, hpf]
    refine ⟨by simpa using i1, by simpa using i2, ?_, ?_,
      by simpa using i5, by simpa using i6, by simpa using i7,
      by simpa using i8, by simpa using i9⟩
    · intro e he
      simp only [List.cons_append, List.nil_append, List.mem_cons] at he
      rcases he with he | he
      · exact ⟨List.ofFn (env.fsynth st.voc f).1, he, by simp [LPCNET_FRAME_SIZE]⟩
      · exact i3 e he
    · show LPCNET_FRAME_SIZE + (runFrames env _ fs).2.1.2 = (f :: fs).length * LPCNET_FRAME_SIZE
      rw [i4, List.length_cons]
      ring

/-- Behaviour of the per-frame loop while the warm-up counter stays below 5:
every frame is stored in the warm-up buffer and consumed, with no events, no
RMS contribution, and the primed flag, level and vocoder state untouched. -/
theorem runFrames_warmup {V : Type} (env : VocoderEnv V) (st : LoopSt V)
    (fs : List (List ℚ)) (h1 : st.fargan_ready = false)
    (h2 : st.warmup_count + fs.length ≤ 4) :
    (runFrames env st fs).2.2 = ⟨[], []⟩
    ∧ (runFrames env st fs).2.1 = (0, 0)
    ∧ (runFrames env st fs).1.fargan_ready = false
    ∧ (runFrames env st fs).1.warmup_count = st.warmup_count + fs.length
    ∧ (runFrames env st fs).1.output_primed = st.output_primed
    ∧ (runFrames env st fs).1.output_level = st.output_level
    ∧ (runFrames env st fs).1.voc = st.voc
    ∧ (runFrames env st fs).1.was_synced = st.was_synced
    ∧ (∀ i, i < st.warmup_count →
        (runFrames env st fs).1.warmup_buf i = st.warmup_buf i)
    ∧ (∀ k, k < fs.length →
        (runFrames env st fs).1.warmup_buf (st.warmup_count + k)
          = (fs.getD k []).take NB_TOTAL_FEAT) := by
  induction fs generalizing st with
  | nil =>
    refine ⟨rfl, rfl, h1, by simp [runFrames], rfl, rfl, rfl, rfl,
      fun i _ => rfl, fun k hk => absurd hk (by simp)⟩
  | cons f fs ih =>
    have hpf : processFrame env st f
        = ({ st with
              warmup_buf := Function.update st.warmup_buf st.warmup_count (f.take NB_TOTAL_FEAT),
              warmup_count := st.warmup_count + 1 },
           (0, 0), ⟨[], []⟩) := by
      rw [processFrame, if_pos h1, if_neg (by simp at h2 ⊢; omega)]
    set st1 : LoopSt V :=
      { st with
          warmup_buf := Function.update st.warmup_buf st.warmup_count (f.take NB_TOTAL_FEAT),
          warmup_count := st.warmup_count + 1 } with hst1
    obtain ⟨i1, i2, i3, i4, i5, i6, i7, i8, i9, i10⟩ :=
      ih st1 h1 (by simp [hst1]; simp at h2; omega)
    have hplays : (runFrames env st (f :: fs)).2.2 = (runFrames env st1 fs).2.2 := by
      simp only [runFrames, hpf]
      rw [i1]
      rfl
    have hstate : (runFrames env st (f :: fs)).1 = (runFrames env st1 fs).1 := by
      simp only [runFrames, hpf]
    have hrms : (runFrames env st (f :: fs)).2.1 = (runFrames env st1 fs).2.1 := by
      simp only [runFrames, hpf]
      rw [i2]
      simp [Prod.ext_iff]
    refine ⟨by rw [hplays, i1], by rw [hrms, i2], by rw [hstate]; exact i3,
      by rw [hstate, i4]; simp [hst1, List.length_cons]; omega,
      by rw [hstate, i5], by rw [hstate, i6], by rw [hstate, i7],
      by rw [hstate, i8], ?_, ?_⟩
    · intro i hi
      rw [hstate]
      rw [i9 i (by simp [hst1]; omega)]
      simp only [hst1]
      exact Function.update_noteq (by omega) _ _
    · intro k hk
      rw [hstate]
      cases k with
      | zero =>
        rw [show st.warmup_count + 0 = st1.warmup_count - 1 from by simp [hst1]]
        rw [i9 (st1.warmup_count - 1) (by simp [hst1])]
        simp only [hst1]
        rw [show st.warmup_count + 1 - 1 = st.warmup_count from by omega]
        rw [Function.update_same]
        simp
      | succ k' =>
        have := i10 k' (by simp at hk ⊢; omega)
        rw [show st.warmup_count + (k' + 1) = st1.warmup_count + k' from by simp [hst1]; omega]
        rw [this]
        simp

/-- Unfolding of `processFrame` on the 5th warm-up frame: the frame is stored,
the buffer is repacked and `fargan_cont` is called with a zeroed seed, the
machine becomes ready and primed, and the silence pre-fill is emitted exactly
when `output_primed` was still false. -/
theorem processFrame_cross {V : Type} (env : VocoderEnv V) (st : LoopSt V) (f : List ℚ)
    (h1 : st.fargan_ready = false) (h4 : st.warmup_count = 4) :
    processFrame env st f =
      ({ st with
          warmup_buf := Function.update st.warmup_buf st.warmup_count (f.take NB_TOTAL_FEAT),
          warmup_count := st.warmup_count + 1,
          voc := env.fcont st.voc (List.replicate FARGAN_CONT_SAMPLES 0)
            ((List.range 5).flatMap (fun i =>
              ((Function.update st.warmup_buf st.warmup_count (f.take NB_TOTAL_FEAT)) i).take
                NB_FEATURES)),
          fargan_ready := true,
          output_primed := true },
       (0, 0),
       ⟨if st.output_primed = false then [PlayEvent.silence PREFILL] else [],
        [(List.replicate FARGAN_CONT_SAMPLES 0,
          (List.range 5).flatMap (fun i =>
            ((Function.update st.warmup_buf st.warmup_count (f.take NB_TOTAL_FEAT)) i).take
              NB_FEATURES))]⟩) := by
  rw [processFrame, if_pos h1, if_pos (by omega)]
  cases hprim : st.output_primed with
  | false => simp [hprim]
  | true => simp [hprim]

/-- Behaviour of the per-frame loop when the frames of this iteration complete
the warm-up: exactly one priming call occurs, with a zeroed seed and the
repacked 5-frame block made of the buffered history `hs` and the first
`5 - hs.length` fresh frames; the playback events are the silence pre-fill
(when not yet primed) followed by one speech block per remaining frame. -/
theorem runFrames_cross {V : Type} (env : VocoderEnv V) (st : LoopSt V)
    (hs fs : List (List ℚ))
    (h1 : st.fargan_ready = false)
    (hc : st.warmup_count = hs.length)
    (hle : hs.length ≤ 4)
    (hbuf : ∀ i, i < hs.length → st.warmup_buf i = (hs.getD i []).take NB_TOTAL_FEAT)
    (htot : 5 ≤ hs.length + fs.length) :
    (runFrames env st fs).2.2.primes
      = [(List.replicate FARGAN_CONT_SAMPLES 0, packedOf (hs ++ fs.take (5 - hs.length)))]
    ∧ (∃ tl, (runFrames env st fs).2.2.plays
          = (if st.output_primed then [] else [PlayEvent.silence PREFILL]) ++ tl
        ∧ tl.length = hs.length + fs.length - 5
        ∧ (∀ e ∈ tl, ∃ pcm, e = PlayEvent.speech pcm ∧ pcm.length = LPCNET_FRAME_SIZE))
    ∧ (runFrames env st fs).2.1.2 = (hs.length + fs.length - 5) * LPCNET_FRAME_SIZE
    ∧ (runFrames env st fs).1.fargan_ready = true
    ∧ (runFrames env st fs).1.output_primed = true
    ∧ (runFrames env st fs).1.output_level = st.output_level
    ∧ (runFrames env st fs).1.was_synced = st.was_synced := by
  induction fs generalizing st hs with
  | nil => simp at htot; omega
  | cons f fs ih =>
    by_cases h4 : hs.length = 4
    · -- this frame completes the warm-up
      have hpf := processFrame_cross env st f h1 (by omega)
      set buf := Function.update st.warmup_buf st.warmup_count (f.take NB_TOTAL_FEAT) with hbufdef
      set packed := (List.range 5).flatMap (fun i => (buf i).take NB_FEATURES) with hpacked
      set stp : LoopSt V :=
        { st with
            warmup_buf := buf, warmup_count := st.warmup_count + 1,
            voc := env.fcont st.voc (List.replicate FARGAN_CONT_SAMPLES 0) packed,
            fargan_ready := true, output_primed := true } with hstp
      obtain ⟨p1, p2, p3, p4, p5, p6, p7, p8, p9⟩ :=
        runFrames_primed env stp fs (by simp [hstp])
      have hpackeq : packed = packedOf (hs ++ (f :: fs).take (5 - hs.length)) := by
        rw [show 5 - hs.length = 1 from by omega, List.take_succ_cons, List.take_zero]
        apply packed_eq
        · simp [h4]
        · intro i hi
          rcases Nat.lt_or_ge i hs.length with hlt | hge
          · rw [hbufdef, Function.update_noteq (by omega), hbuf i hlt,
              getD_append_lt hs [f] [] i (by omega)]
          · have hieq : i = hs.length := by omega
            subst hieq
            rw [hbufdef, hc, Function.update_same, getD_append_len hs f []]
      have hrw : runFrames env st (f :: fs)
          = ((runFrames env stp fs).1,
             ((0 : ℚ) + (runFrames env stp fs).2.1.1, 0 + (runFrames env stp fs).2.1.2),
             ⟨(if st.output_primed = false then [PlayEvent.silence PREFILL] else [])
                ++ (runFrames env stp fs).2.2.plays,
              [(List.replicate FARGAN_CONT_SAMPLES 0, packed)]
                ++ (runFrames env stp fs).2.2.primes⟩) := by
        simp only [runFrames, hpf]
      rw [hrw]
      refine ⟨?_, ?_, ?_, ?_, ?_, ?_, ?_⟩
      · show [(List.replicate FARGAN_CONT_SAMPLES 0, packed)]
            ++ (runFrames env stp fs).2.2.primes = _
        rw [p1, hpackeq]
        simp
      · refine ⟨(runFrames env stp fs).2.2.plays, ?_, ?_, p3⟩
        · show (if st.output_primed = false then [PlayEvent.silence PREFILL] else [])
              ++ (runFrames env stp fs).2.2.plays = _
          cases hpr : st.output_primed <;> simp [hpr]
        · rw [p2]
          simp only [List.length_cons]
          omega
      · show (0 : ℕ) + (runFrames env stp fs).2.1.2 = _
        rw [p4]
        simp only [List.length_cons, Nat.zero_add]
        congr 1
        omega
      · exact p5
      · show (runFrames env stp fs).1.output_primed = true
        rw [p6]
      · show (runFrames env stp fs).1.output_level = st.output_level
        rw [p7]
      · show (runFrames env stp fs).1.was_synced = st.was_synced
        rw [p9]
    · -- still warming up after this frame
      have hpf : processFrame env st f
          = ({ st with
                warmup_buf := Function.update st.warmup_buf st.warmup_count
                  (f.take NB_TOTAL_FEAT),
                warmup_count := st.warmup_count + 1 },
             (0, 0), ⟨[], []⟩) := by
        rw [processFrame, if_pos h1, if_neg (by omega)]
      set st1 : LoopSt V :=
        { st with
            warmup_buf := Function.update st.warmup_buf st.warmup_count (f.take NB_TOTAL_FEAT),
            warmup_count := st.warmup_count + 1 } with hst1
      have hbuf1 : ∀ i, i < (hs ++ [f]).length →
          st1.warmup_buf i = ((hs ++ [f]).getD i []).take NB_TOTAL_FEAT := by
        intro i hi
        simp only [List.length_append, List.length_cons, List.length_nil] at hi
        rcases Nat.lt_or_ge i hs.length with hlt | hge
        · show (Function.update st.warmup_buf st.warmup_count (f.take NB_TOTAL_FEAT)) i
              = ((hs ++ [f]).getD i []).take NB_TOTAL_FEAT
          rw [Function.update_noteq (by omega), hbuf i hlt,
            getD_append_lt hs [f] [] i (by omega)]
        · have hieq : i = hs.length := by omega
          subst hieq
          show (Function.update st.warmup_buf st.warmup_count (f.take NB_TOTAL_FEAT)) hs.length
              = ((hs ++ [f]).getD hs.length []).take NB_TOTAL_FEAT
          rw [hc, Function.update_same, getD_append_len hs f []]
      obtain ⟨q1, q2, q3, q4, q5, q6, q7⟩ :=
        ih st1 (hs ++ [f]) (by exact h1) (by simp [hst1, hc])
          (by simp only [List.length_append, List.length_cons, List.length_nil]; omega) hbuf1
          (by simp only [List.length_append, List.length_cons, List.length_nil] at htot ⊢
              omega)
      have happ : (hs ++ [f]) ++ fs.take (5 - (hs ++ [f]).length)
          = hs ++ (f :: fs).take (5 - hs.length) := by
        have hlen5 : 5 - hs.length = (5 - (hs.length + 1)) + 1 := by omega
        rw [hlen5, List.take_succ_cons]
        simp [List.append_assoc]
      have hrw : runFrames env st (f :: fs)
          = ((runFrames env st1 fs).1,
             ((0 : ℚ) + (runFrames env st1 fs).2.1.1, 0 + (runFrames env st1 fs).2.1.2),
             ⟨[] ++ (runFrames env st1 fs).2.2.plays,
              [] ++ (runFrames env st1 fs).2.2.primes⟩) := by
        simp only [runFrames, hpf]
      rw [hrw]
      refine ⟨?_, ?_, ?_, ?_, ?_, ?_, ?_⟩
      · show [] ++ (runFrames env st1 fs).2.2.primes = _
        rw [List.nil_append, q1, happ]
      · obtain ⟨tl, ht1, ht2, ht3⟩ := q2
        refine ⟨tl, ?_, ?_, ht3⟩
        · show [] ++ (runFrames env st1 fs).2.2.plays = _
          rw [List.nil_append, ht1]
        · simp only [List.length_append, List.length_cons, List.length_nil] at ht2 ⊢
          omega
      · show (0 : ℕ) + (runFrames env st1 fs).2.1.2 = _
        rw [Nat.zero_add, q3]
        simp only [List.length_append, List.length_cons, List.length_nil]
        congr 1
        omega
      · exact q4
      · exact q5
      · show (runFrames env st1 fs).1.output_level = st.output_level
        rw [q6]
      · show (runFrames env st1 fs).1.was_synced = st.was_synced
        rw [q7]

theorem speechCount_append (a b : List PlayEvent) :
    speechCount (a ++ b) = speechCount a + speechCount b := by
  simp [speechCount, List.countP_append]

theorem speechCount_all (evs : List PlayEvent)
    (h : ∀ e ∈ evs, ∃ pcm, e = PlayEvent.speech pcm ∧ pcm.length = LPCNET_FRAME_SIZE) :
    speechCount evs = evs.length := by
  rw [speechCount, List.countP_eq_length]
  intro e he
  obtain ⟨pcm, rfl, -⟩ := h e he
  rfl

/-- Counting version of the warm-up behaviour, independent of the buffer
contents: with `c` frames already buffered and `n` fresh frames arriving, the
iteration synthesizes `c + n - 5` blocks (truncated at zero), contributes
`(c + n - 5) · LPCNET_FRAME_SIZE` samples to the RMS accumulator, and leaves
the published output level untouched. -/
theorem runFrames_counts {V : Type} (env : VocoderEnv V) (st : LoopSt V)
    (fs : List (List ℚ)) (h1 : st.fargan_ready = false) (hle : st.warmup_count ≤ 4) :
    (runFrames env st fs).2.1.2
        = (st.warmup_count + fs.length - 5) * LPCNET_FRAME_SIZE
    ∧ speechCount (runFrames env st fs).2.2.plays = st.warmup_count + fs.length - 5
    ∧ (runFrames env st fs).1.output_level = st.output_level := by
  induction fs generalizing st with
  | nil =>
    refine ⟨?_, ?_, rfl⟩
    · show (0 : ℕ) = (st.warmup_count + 0 - 5) * LPCNET_FRAME_SIZE
      rw [show st.warmup_count + 0 - 5 = 0 from by omega]
      simp
    · show speechCount [] = st.warmup_count + 0 - 5
      rw [show st.warmup_count + 0 - 5 = 0 from by omega]
      rfl
  | cons f fs ih =>
    by_cases h4 : st.warmup_count = 4
    · have hpf := processFrame_cross env st f h1 h4
      set buf := Function.update st.warmup_buf st.warmup_count (f.take NB_TOTAL_FEAT) with hbufdef
      set packed := (List.range 5).flatMap (fun i => (buf i).take NB_FEATURES) with hpacked
      set stp : LoopSt V :=
        { st with
            warmup_buf := buf, warmup_count := st.warmup_count + 1,
            voc := env.fcont st.voc (List.replicate FARGAN_CONT_SAMPLES 0) packed,
            fargan_ready := true, output_primed := true } with hstp
      obtain ⟨p1, p2, p3, p4, p5, p6, p7, p8, p9⟩ :=
        runFrames_primed env stp fs (by simp [hstp])
      have hrw : runFrames env st (f :: fs)
          = ((runFrames env stp fs).1,
             ((0 : ℚ) + (runFrames env stp fs).2.1.1, 0 + (runFrames env stp fs).2.1.2),
             ⟨(if st.output_primed = false then [PlayEvent.silence PREFILL] else [])
                ++ (runFrames env stp fs).2.2.plays,
              [(List.replicate FARGAN_CONT_SAMPLES 0, packed)]
                ++ (runFrames env stp fs).2.2.primes⟩) := by
        simp only [runFrames, hpf]
      rw [hrw]
      refine ⟨?_, ?_, ?_⟩
      · show (0 : ℕ) + (runFrames env stp fs).2.1.2 = _
        rw [Nat.zero_add, p4]
        simp only [List.length_cons]
        congr 1
        omega
      · show speechCount ((if st.output_primed = false then [PlayEvent.silence PREFILL] else [])
            ++ (runFrames env stp fs).2.2.plays) = _
        rw [speechCount_append, speechCount_all _ p3, p2]
        have hone : speechCount (if st.output_primed = false
            then [PlayEvent.silence PREFILL] else []) = 0 := by
          split <;> rfl
        rw [hone]
        simp only [List.length_cons]
        omega
      · show (runFrames env stp fs).1.output_level = st.output_level
        rw [p7]
    · have hpf : processFrame env st f
          = ({ st with
                warmup_buf := Function.update st.warmup_buf st.warmup_count
                  (f.take NB_TOTAL_FEAT),
                warmup_count := st.warmup_count + 1 },
             (0, 0), ⟨[], []⟩) := by
        rw [processFrame, if_pos h1, if_neg (by omega)]
      set st1 : LoopSt V :=
        { st with
            warmup_buf := Function.update st.warmup_buf st.warmup_count (f.take NB_TOTAL_FEAT),
            warmup_count := st.warmup_count + 1 } with hst1
      obtain ⟨q1, q2, q3⟩ := ih st1 (by exact h1) (by simp [hst1]; omega)
      have hrw : runFrames env st (f :: fs)
          = ((runFrames env st1 fs).1,
             ((0 : ℚ) + (runFrames env st1 fs).2.1.1, 0 + (runFrames env st1 fs).2.1.2),
             ⟨[] ++ (runFrames env st1 fs).2.2.plays,
              [] ++ (runFrames env st1 fs).2.2.primes⟩) := by
        simp only [runFrames, hpf]
      rw [hrw]
      refine ⟨?_, ?_, ?_⟩
      · show (0 : ℕ) + (runFrames env st1 fs).2.1.2 = _
        rw [Nat.zero_add, q1]
        simp only [hst1, List.length_cons]
        congr 1
        omega
      · show speechCount ([] ++ (runFrames env st1 fs).2.2.plays) = _
        rw [List.nil_append, q2]
        simp only [hst1, List.length_cons]
        omega
      · show (runFrames env st1 fs).1.output_level = st.output_level
        rw [q3]

/-- C2: from a freshly entered `Unprimed` state (warm-up counter zero), feeding
`n` feature frames produces no priming call and no PCM when `n < 5`; at `n = 5`
exactly one priming call occurs, with a zeroed seed and the first five frames
repacked from the `NB_TOTAL_FEAT` stride to the `NB_FEATURES` stride, and still
no PCM; each frame past the fifth produces exactly one `LPCNET_FRAME_SIZE`
sample block via the single-frame synthesis call. -/
theorem C2_vocoder_warmup {V : Type} (env : VocoderEnv V) (st : LoopSt V)
    (fs : List (List ℚ)) (h1 : st.fargan_ready = false) (h2 : st.warmup_count = 0) :
    speechCount (runFrames env st fs).2.2.plays = fs.length - 5
    ∧ (runFrames env st fs).2.2.primes.length = (if 5 ≤ fs.length then 1 else 0)
    ∧ (5 ≤ fs.length → (runFrames env st fs).2.2.primes
        = [(List.replicate FARGAN_CONT_SAMPLES 0, packedOf (fs.take 5))])
    ∧ (∀ e ∈ (runFrames env st fs).2.2.plays, ∀ pcm, e = PlayEvent.speech pcm →
        pcm.length = LPCNET_FRAME_SIZE) := by
  by_cases hlen : 5 ≤ fs.length
  · obtain ⟨r1, r2, r3, r4, r5, r6, r7⟩ :=
      runFrames_cross env st [] fs h1 (by simpa using h2) (by simp)
        (by intro i hi; simp at hi) (by simpa using hlen)
    obtain ⟨tl, ht1, ht2, ht3⟩ := r2
    have hpk : ([] : List (List ℚ)) ++ fs.take (5 - ([] : List (List ℚ)).length)
        = fs.take 5 := by simp
    refine ⟨?_, ?_, fun _ => by rw [r1, hpk], ?_⟩
    · rw [ht1, speechCount_append, speechCount_all _ ht3, ht2]
      have : speechCount (if st.output_primed = true then []
          else [PlayEvent.silence PREFILL]) = 0 := by
        split <;> rfl
      rw [this]
      simp
    · rw [r1, hpk, if_pos hlen]
      rfl
    · intro e he pcm hpcm
      rw [ht1] at he
      rw [List.mem_append] at he
      rcases he with he | he
      · exfalso
        revert he
        split <;> simp_all
      · obtain ⟨pcm2, hpe, hplen⟩ := ht3 e he
        rw [hpcm] at hpe
        obtain rfl : pcm2 = pcm := by
          injection hpe.symm
        exact hplen
  · obtain ⟨w1, w2, -⟩ := runFrames_warmup env st fs h1 (by omega)
    refine ⟨?_, ?_, fun hc => absurd hc hlen, ?_⟩
    · rw [w1]
      show (0 : ℕ) = fs.length - 5
      omega
    · rw [w1, if_neg hlen]
      rfl
    · intro e he
      rw [w1] at he
      simp at he

theorem syncStep_level {V : Type} (env : VocoderEnv V) (st : LoopSt V) (ns : Bool) :
    (syncStep env st ns).output_level = st.output_level := by
  rw [syncStep]
  split <;> rfl

theorem syncStep_ready_false {V : Type} (env : VocoderEnv V) (st : LoopSt V) (ns : Bool)
    (h : st.fargan_ready = false) :
    (syncStep env st ns).fargan_ready = false := by
  rw [syncStep]
  split <;> simp [h]

theorem syncStep_count_le {V : Type} (env : VocoderEnv V) (st : LoopSt V) (ns : Bool) :
    (syncStep env st ns).warmup_count ≤ st.warmup_count := by
  rw [syncStep]
  split <;> simp

theorem syncStep_reset {V : Type} (env : VocoderEnv V) (st : LoopSt V)
    (h : st.was_synced = true) :
    (syncStep env st false).voc = env.fstate0
    ∧ (syncStep env st false).fargan_ready = false
    ∧ (syncStep env st false).warmup_count = 0
    ∧ (syncStep env st false).output_primed = false
    ∧ (syncStep env st false).output_level = st.output_level
    ∧ (syncStep env st false).warmup_buf = st.warmup_buf := by
  rw [syncStep, if_pos (by simp [h])]
  exact ⟨rfl, rfl, rfl, rfl, rfl, rfl⟩

/-- C10: on an iteration whose decoded frames are all consumed as warm-up
frames (the vocoder is unprimed and the frames do not push the warm-up counter
past 5), the published output level is left completely unchanged — it is
neither recomputed from synthesized audio nor decayed by 0.9 — and no PCM
block is written. -/
theorem C10_warmup_only_level_unchanged {V : Type} (env : VocoderEnv V) (st : LoopSt V)
    (b : Bool) (fs : List (List ℚ))
    (h1 : st.fargan_ready = false) (h2 : st.warmup_count + fs.length ≤ 5)
    (h3 : fs ≠ []) :
    (stepIter env st (b, fs)).1.output_level = st.output_level
    ∧ speechCount (stepIter env st (b, fs)).2.plays = 0 := by
  have hones : (syncStep env st b).fargan_ready = false := syncStep_ready_false env st b h1
  have hcle : (syncStep env st b).warmup_count ≤ st.warmup_count := syncStep_count_le env st b
  have hlev : (syncStep env st b).output_level = st.output_level := syncStep_level env st b
  have hfs1 : 1 ≤ fs.length := List.length_pos.mpr h3
  obtain ⟨c1, c2, c3⟩ :=
    runFrames_counts env (syncStep env st b) fs hones (by omega)
  have hzero : (syncStep env st b).warmup_count + fs.length - 5 = 0 := by omega
  rw [hzero] at c1 c2
  have hrw : stepIter env st (b, fs) = ((runFrames env (syncStep env st b) fs).1,
      (runFrames env (syncStep env st b) fs).2.2) := by
    rw [stepIter, if_neg (by simpa using h3), if_neg (by rw [c1]; simp)]
  rw [hrw]
  exact ⟨by rw [c3, hlev], c2⟩

/-- Iterating the no-frames branch of the loop `n` times. -/
def decayRun {V : Type} (env : VocoderEnv V) (b : Bool) : ℕ → LoopSt V → LoopSt V
  | 0, st => st
  | Nat.succ n, st => decayRun env b n (stepIter env st (b, [])).1

/-- C5: when the decode call returns no frames, the published output level is
multiplied by exactly 9/10; iterating such frame-less iterations multiplies the
level by `(9/10)^n`, which stays strictly positive from a positive start, never
becomes negative, and eventually falls below any positive bound. -/
theorem C5_level_decay {V : Type} (env : VocoderEnv V) (st : LoopSt V) (b : Bool) :
    (stepIter env st (b, [])).1.output_level = st.output_level * (9 / 10)
    ∧ (∀ n, (decayRun env b n st).output_level = (9 / 10 : ℚ) ^ n * st.output_level)
    ∧ (0 ≤ st.output_level → ∀ n, 0 ≤ (decayRun env b n st).output_level)
    ∧ (0 < st.output_level → ∀ n, 0 < (decayRun env b n st).output_level)
    ∧ (0 < st.output_level → ∀ ε : ℚ, 0 < ε →
        ∃ n, (decayRun env b n st).output_level < ε) := by
  have hstep : ∀ s : LoopSt V, (stepIter env s (b, [])).1.output_level
      = s.output_level * (9 / 10) := by
    intro s
    rw [stepIter, if_pos rfl]
    show (syncStep env s b).output_level * (9 / 10) = _
    rw [syncStep_level]
  have hpow : ∀ (n : ℕ) (s : LoopSt V), (decayRun env b n s).output_level
      = (9 / 10 : ℚ) ^ n * s.output_level := by
    intro n
    induction n with
    | zero => intro s; simp [decayRun]
    | succ m ih =>
      intro s
      rw [decayRun, ih, hstep]
      ring
  refine ⟨hstep st, fun n => hpow n st, ?_, ?_, ?_⟩
  · intro h0 n
    rw [hpow n st]
    positivity
  · intro h0 n
    rw [hpow n st]
    positivity
  · intro h0 ε hε
    obtain ⟨n, hn⟩ := exists_pow_lt_of_lt_one (div_pos hε h0) (by norm_num : (9 / 10 : ℚ) < 1)
    refine ⟨n, ?_⟩
    rw [hpow n st]
    calc (9 / 10 : ℚ) ^ n * st.output_level
        < ε / st.output_level * st.output_level := by
          exact mul_lt_mul_of_pos_right hn h0
      _ = ε := div_mul_cancel₀ ε (ne_of_gt h0)

/-- Total number of feature frames across a sequence of iteration inputs. -/
def totalFrames (inputs : List (Bool × List (List ℚ))) : ℕ :=
  (inputs.map (fun i => i.2.length)).sum

/-- While the vocoder stays unprimed and fewer than 5 frames arrive in total
(counted from the most recent reset), no PCM block is produced, whatever the
sync pattern: further sync losses only reset the warm-up counter again. -/
theorem runIters_no_pcm {V : Type} (env : VocoderEnv V) :
    ∀ (inputs : List (Bool × List (List ℚ))) (st : LoopSt V),
      st.fargan_ready = false → st.warmup_count + totalFrames inputs ≤ 4 →
      speechCount (runIters env st inputs).2.plays = 0 := by
  intro inputs
  induction inputs with
  | nil => intro st _ _; rfl
  | cons i rest ih =>
    intro st h1 h2
    obtain ⟨b, fs⟩ := i
    have htot : totalFrames ((b, fs) :: rest) = fs.length + totalFrames rest := by
      simp [totalFrames]
    rw [htot] at h2
    have hready1 : (syncStep env st b).fargan_ready = false := syncStep_ready_false env st b h1
    have hcle : (syncStep env st b).warmup_count ≤ st.warmup_count := syncStep_count_le env st b
    have hone : speechCount (stepIter env st (b, fs)).2.plays = 0
        ∧ (stepIter env st (b, fs)).1.fargan_ready = false
        ∧ (stepIter env st (b, fs)).1.warmup_count
            ≤ (syncStep env st b).warmup_count + fs.length := by
      by_cases hfs : fs = []
      · subst hfs
        rw [stepIter, if_pos rfl]
        exact ⟨rfl, hready1, by simp⟩
      · obtain ⟨w1, w2, w3, w4, -⟩ :=
          runFrames_warmup env (syncStep env st b) fs hready1 (by omega)
        have hrw : stepIter env st (b, fs)
            = ((runFrames env (syncStep env st b) fs).1,
               (runFrames env (syncStep env st b) fs).2.2) := by
          rw [stepIter, if_neg (by simpa using hfs), if_neg (by rw [w2]; simp)]
        rw [hrw]
        exact ⟨by rw [w1]; rfl, w3, by rw [w4]⟩
    obtain ⟨e1, e2, e3⟩ := hone
    have hrec := ih (stepIter env st (b, fs)).1 e2 (by omega)
    show speechCount ((stepIter env st (b, fs)).2.plays
        ++ (runIters env (stepIter env st (b, fs)).1 rest).2.plays) = 0
    rw [speechCount_append, e1, hrec]

/-- C3: on an iteration whose input reports loss of sync while the previous
iteration was synchronized, the sync handler re-initializes the vocoder state,
clears the ready flag and the warm-up counter (returning the manager to
`Unprimed`) and clears the primed-output flag; consequently, however the sync
flag evolves afterwards, no PCM block is produced until at least 5 fresh
frames have arrived. -/
theorem C3_sync_loss_requires_fresh_warmup {V : Type} (env : VocoderEnv V) (st : LoopSt V)
    (fs0 : List (List ℚ)) (rest : List (Bool × List (List ℚ)))
    (hsync : st.was_synced = true)
    (htot : fs0.length + totalFrames rest ≤ 4) :
    ((syncStep env st false).voc = env.fstate0
      ∧ (syncStep env st false).fargan_ready = false
      ∧ (syncStep env st false).warmup_count = 0)
    ∧ speechCount (runIters env st ((false, fs0) :: rest)).2.plays = 0 := by
  obtain ⟨s1, s2, s3, s4, s5, s6⟩ := syncStep_reset env st hsync
  refine ⟨⟨s1, s2, s3⟩, ?_⟩
  have hone : speechCount (stepIter env st (false, fs0)).2.plays = 0
      ∧ (stepIter env st (false, fs0)).1.fargan_ready = false
      ∧ (stepIter env st (false, fs0)).1.warmup_count ≤ fs0.length := by
    by_cases hfs : fs0 = []
    · subst hfs
      rw [stepIter, if_pos rfl]
      exact ⟨rfl, s2, by simp [s3]⟩
    · obtain ⟨w1, w2, w3, w4, -⟩ :=
        runFrames_warmup env (syncStep env st false) fs0 s2 (by omega)
      have hrw : stepIter env st (false, fs0)
          = ((runFrames env (syncStep env st false) fs0).1,
             (runFrames env (syncStep env st false) fs0).2.2) := by
        rw [stepIter, if_neg (by simpa using hfs), if_neg (by rw [w2]; simp)]
      rw [hrw]
      exact ⟨by rw [w1]; rfl, w3, by rw [w4, s3]; omega⟩
  obtain ⟨e1, e2, e3⟩ := hone
  have hrec := runIters_no_pcm env rest (stepIter env st (false, fs0)).1 e2 (by omega)
  show speechCount ((stepIter env st (false, fs0)).2.plays
      ++ (runIters env (stepIter env st (false, fs0)).1 rest).2.plays) = 0
  rw [speechCount_append, e1, hrec]

/-- Number of silence pre-fill events among a list of playback events. -/
def silenceCount (evs : List PlayEvent) : ℕ :=
  evs.countP (fun e => match e with | PlayEvent.silence _ => true | _ => false)

/-- One all-zero feature frame of the total-features stride. -/
def zeroFrame : List ℚ := List.replicate NB_TOTAL_FEAT 0

/-- Trace for the C4 counterexample: sync with 5 warm-up frames (first priming),
then a sync loss with no frames, then sync again with 5 fresh warm-up frames
(second priming) — all within one running session. -/
def c4trace : List (Bool × List (List ℚ)) :=
  [(true, List.replicate 5 zeroFrame), (false, []), (true, List.replicate 5 zeroFrame)]

/-- C4 counterexample: over `c4trace` the vocoder enters `Primed` twice and the
orchestrator pushes the silence pre-fill **twice** — once per priming — because
the `output_primed` flag is cleared again on the sync loss (line 600); the
claim that silence is pushed only at the first entry to `Primed` within a
running session is therefore false. -/
theorem C4_silence_pushed_every_priming :
    (runIters trivialVoc (freshLoopSt trivialVoc) c4trace).2.primes.length = 2
    ∧ silenceCount (runIters trivialVoc (freshLoopSt trivialVoc) c4trace).2.plays = 2 := by
  decide

/-- C4 amended: the silence pre-fill is pushed on **every** entry to `Primed`,
not only the first: every sync loss clears the `output_primed` flag along with
the warm-up machine, and from any unprimed state with the flag clear, the
iteration that completes the warm-up writes the fixed `PREFILL`-sample silence
block to the playback sink before any synthesized frame. -/
theorem C4_silence_before_first_frame {V : Type} (env : VocoderEnv V) (st : LoopSt V)
    (b : Bool) (fs : List (List ℚ))
    (h1 : st.fargan_ready = false) (h2 : st.warmup_count = 0)
    (h3 : st.output_primed = false) (hlen : 5 ≤ fs.length) :
    (∀ st' : LoopSt V, st'.was_synced = true →
        ((syncStep env st' false).output_primed = false
          ∧ (syncStep env st' false).fargan_ready = false
          ∧ (syncStep env st' false).warmup_count = 0))
    ∧ (∃ tl, (stepIter env st (b, fs)).2.plays = PlayEvent.silence PREFILL :: tl
        ∧ tl.length = fs.length - 5
        ∧ ∀ e ∈ tl, ∃ pcm, e = PlayEvent.speech pcm ∧ pcm.length = LPCNET_FRAME_SIZE) := by
  constructor
  · intro st' hsy
    obtain ⟨-, r2, r3, r4, -, -⟩ := syncStep_reset env st' hsy
    exact ⟨r4, r2, r3⟩
  · have hready1 : (syncStep env st b).fargan_ready = false := syncStep_ready_false env st b h1
    have hcount1 : (syncStep env st b).warmup_count = 0 := by
      have := syncStep_count_le env st b
      omega
    have hprim1 : (syncStep env st b).output_primed = false := by
      rw [syncStep]
      split
      · rfl
      · exact h3
    obtain ⟨r1, r2, r3, r4, r5, r6, r7⟩ :=
      runFrames_cross env (syncStep env st b) [] fs hready1 (by simpa using hcount1)
        (by simp) (by intro i hi; simp at hi) (by simpa using hlen)
    obtain ⟨tl, ht1, ht2, ht3⟩ := r2
    have hfs : fs ≠ [] := by
      intro hc
      rw [hc] at hlen
      simp at hlen
    have hplays : (stepIter env st (b, fs)).2.plays
        = (runFrames env (syncStep env st b) fs).2.2.plays := by
      rw [stepIter, if_neg (by simpa using hfs)]
      show (if 0 < (runFrames env (syncStep env st b) fs).2.1.2
          then ({ (runFrames env (syncStep env st b) fs).1 with
                    output_level := env.sqrtQ ((runFrames env (syncStep env st b) fs).2.1.1
                      / ((runFrames env (syncStep env st b) fs).2.1.2 : ℚ)) },
                (runFrames env (syncStep env st b) fs).2.2)
          else ((runFrames env (syncStep env st b) fs).1,
                (runFrames env (syncStep env st b) fs).2.2)).2.plays
        = (runFrames env (syncStep env st b) fs).2.2.plays
      split <;> rfl
    refine ⟨tl, ?_, by simpa using ht2, ht3⟩
    rw [hplays, ht1, hprim1]
    rfl

/-- C2 witness: 6 frames fed to a fresh unprimed manager yield exactly one
synthesized block and exactly one priming call, whose arguments are the zeroed
seed and the first 5 frames repacked. -/
theorem C2_vocoder_warmup_witness :
    speechCount (runFrames trivialVoc (freshLoopSt trivialVoc)
        (List.replicate 6 zeroFrame)).2.2.plays = 1
    ∧ (runFrames trivialVoc (freshLoopSt trivialVoc)
        (List.replicate 6 zeroFrame)).2.2.primes
      = [(List.replicate FARGAN_CONT_SAMPLES 0,
          packedOf ((List.replicate 6 zeroFrame).take 5))] := by
  obtain ⟨h1, -, h3, -⟩ :=
    C2_vocoder_warmup trivialVoc (freshLoopSt trivialVoc) (List.replicate 6 zeroFrame) rfl rfl
  exact ⟨by simpa using h1, h3 (by norm_num [List.length_replicate])⟩

/-- C3 witness: from a synchronized state, a sync-loss iteration with one frame
followed by one synchronized iteration with one more frame (two fresh frames in
total) resets the warm-up counter and produces no PCM. -/
theorem C3_sync_loss_requires_fresh_warmup_witness :
    (syncStep trivialVoc { freshLoopSt trivialVoc with was_synced := true }
        false).warmup_count = 0
    ∧ speechCount (runIters trivialVoc { freshLoopSt trivialVoc with was_synced := true }
        [(false, [zeroFrame]), (true, [zeroFrame])]).2.plays = 0 := by
  obtain ⟨⟨-, -, h3⟩, h4⟩ :=
    C3_sync_loss_requires_fresh_warmup trivialVoc
      { freshLoopSt trivialVoc with was_synced := true }
      [zeroFrame] [(true, [zeroFrame])] rfl (by simp [totalFrames])
  exact ⟨h3, h4⟩

/-- C4 amended witness: a fresh unprimed iteration carrying exactly 5 frames
emits the silence pre-fill as its first playback event, followed by no speech
blocks. -/
theorem C4_silence_before_first_frame_witness :
    ∃ tl, (stepIter trivialVoc (freshLoopSt trivialVoc)
        (true, List.replicate 5 zeroFrame)).2.plays = PlayEvent.silence PREFILL :: tl
      ∧ tl.length = 0 := by
  obtain ⟨-, tl, h1, h2, -⟩ :=
    C4_silence_before_first_frame trivialVoc (freshLoopSt trivialVoc) true
      (List.replicate 5 zeroFrame) rfl rfl rfl (by norm_num [List.length_replicate])
  exact ⟨tl, h1, by simpa using h2⟩

/-- C5 witness: starting from output level 1, one frame-less iteration scales
the level by 9/10, the level stays positive, and some number of iterations
brings it below 1/2. -/
theorem C5_level_decay_witness :
    (stepIter trivialVoc { freshLoopSt trivialVoc with output_level := 1 }
        (false, [])).1.output_level = 1 * (9 / 10)
    ∧ (∀ n, 0 < (decayRun trivialVoc false n
        { freshLoopSt trivialVoc with output_level := 1 }).output_level)
    ∧ ∃ n, (decayRun trivialVoc false n
        { freshLoopSt trivialVoc with output_level := 1 }).output_level < 1 / 2 := by
  obtain ⟨h1, -, -, h4, h5⟩ :=
    C5_level_decay trivialVoc { freshLoopSt trivialVoc with output_level := 1 } false
  exact ⟨h1, h4 (by norm_num), h5 (by norm_num) (1 / 2) (by norm_num)⟩

/-- C10 witness: an unprimed iteration carrying two warm-up frames leaves the
published output level exactly as it was and produces no speech block. -/
theorem C10_warmup_only_level_unchanged_witness :
    (stepIter trivialVoc { freshLoopSt trivialVoc with output_level := 7 }
        (false, [zeroFrame, zeroFrame])).1.output_level = 7
    ∧ speechCount (stepIter trivialVoc { freshLoopSt trivialVoc with output_level := 7 }
        (false, [zeroFrame, zeroFrame])).2.plays = 0 := by
  obtain ⟨h1, h2⟩ :=
    C10_warmup_only_level_unchanged trivialVoc
      { freshLoopSt trivialVoc with output_level := 7 } false [zeroFrame, zeroFrame]
      rfl (by norm_num [freshLoopSt]) (by simp)
  exact ⟨h1, h2⟩

end FreeDV
